import Mathlib

/-!
Shallow embedding of the client-side aggregation core of the Tennessee
stranded-talent dashboard: scope filter, cohort aggregator, profile classifier,
recommendation composer, and the target-occupation auto-populate effect.
Weights (worker counts) are modelled as integers and derived shares as
rationals; JS objects used as label-to-sum tables are
modelled as insertion-ordered association lists; `Array.prototype.sort` (stable)
is modelled by `List.insertionSort` on the relation "comparator result ≤ 0"; `Array.prototype.indexOf` (−1 when absent) is modelled by
`jsIndexOf`.
-/

/-- One row of the dataset (field names as in the source `DataRow`). -/
structure DataRow where
  msa_category : String
  NAICS2_NAME : String
  n_weighted : ℤ
  n_weighted_low_wage : ℤ
  n_weighted_underemployed : ℤ
  n_weighted_stalled : ℤ
  education_level_label : String
  soc_2019_5_acs_name : String
  age_group : String
deriving DecidableEq

/-- The four cohort selectors of the dashboard. -/
inductive CohortType where
  | lowWage
  | underemployedC
  | stalledC
  | allStranded
deriving DecidableEq

/-- Education levels in increasing order of credential (source constant). -/
def EDUCATION_ORDER : List String :=
  ["Less than HS",
   "HS diploma/GED",
   "Some college",
   "Associate\x27s degree",
   "Bachelor\x27s degree",
   "Master\x27s degree",
   "Professional/Doctorate"]

/-- Age brackets in increasing order (source constant). -/
def AGE_GROUPS : List String := ["18-24", "25-34", "35-44", "45-54", "55-64"]

/-- Per-row weight contributed to the breakdowns for a cohort selector
(the `let weight = ...` chain in `cohortBreakdowns`). -/
def cohortWeight : CohortType → DataRow → ℤ
  | .lowWage, d => d.n_weighted_low_wage
  | .underemployedC, d => d.n_weighted_underemployed
  | .stalledC, d => d.n_weighted_stalled
  | .allStranded, d =>
      d.n_weighted_low_wage + d.n_weighted_underemployed + d.n_weighted_stalled

/-- The Scope Filter: keep rows of the selected sector whose region matches
the selection, with `"All"` as the geography wildcard. -/
def filteredByScope (rawData : List DataRow) (geography sector : String) :
    List DataRow :=
  rawData.filter fun d =>
    (geography == "All" || d.msa_category == geography) &&
      d.NAICS2_NAME == sector

/-- The four top-line sums (`stats` in the source). -/
structure Stats where
  total : ℤ
  lw : ℤ
  ue : ℤ
  st : ℤ
deriving DecidableEq

/-- One iteration of the `forEach` accumulation loop of the source. -/
def statsStep (s : Stats) (d : DataRow) : Stats :=
  ⟨s.total + d.n_weighted, s.lw + d.n_weighted_low_wage,
   s.ue + d.n_weighted_underemployed, s.st + d.n_weighted_stalled⟩

/-- Accumulates the four sums over the scoped rows, as the `forEach` loop
of the source does. -/
def statsOf (rows : List DataRow) : Stats := rows.foldl statsStep ⟨0, 0, 0, 0⟩

/-- `m[k] = (m[k] || 0) + w` on a JS object viewed as an insertion-ordered
association list. -/
def upsert : List (String × ℤ) → String → ℤ → List (String × ℤ)
  | [], k, w => [(k, w)]
  | (k', v) :: rest, k, w =>
      if k' = k then (k', v + w) :: rest else (k', v) :: upsert rest k w

/-- Folds the scoped rows into a label-to-sum table, one `upsert` per row. -/
def buildMap (rows : List DataRow) (keyOf : DataRow → String)
    (weightOf : DataRow → ℤ) : List (String × ℤ) :=
  rows.foldl (fun m d => upsert m (keyOf d) (weightOf d)) []

/-- `Array.prototype.indexOf`: first index of `s` in `table`, `-1` if absent. -/
def jsIndexOf (table : List String) (s : String) : Int :=
  match table with
  | [] => -1
  | a :: rest =>
      if a = s then 0
      else
        let r := jsIndexOf rest s
        if r < 0 then -1 else r + 1

/-- "Comparator ≤ 0" relation of the taxonomy-index comparator
`(a, b) => table.indexOf(a[0]) - table.indexOf(b[0])`. -/
def idxRel (table : List String) (a b : String × ℤ) : Prop :=
  jsIndexOf table a.1 ≤ jsIndexOf table b.1

instance (table : List String) : DecidableRel (idxRel table) := fun a b =>
  inferInstanceAs (Decidable (jsIndexOf table a.1 ≤ jsIndexOf table b.1))

/-- "Comparator ≤ 0" relation of the descending-weight comparator
`(a, b) => b[1] - a[1]`. -/
def occRel (a b : String × ℤ) : Prop := b.2 ≤ a.2

instance : DecidableRel occRel := fun a b =>
  inferInstanceAs (Decidable (b.2 ≤ a.2))

/-- The three ordered breakdowns derived for the selected cohort. -/
structure Breakdowns where
  edu : List (String × ℤ)
  age : List (String × ℤ)
  occ : List (String × ℤ)
deriving DecidableEq

/-- The Cohort Aggregator: per-label sums of the cohort weight over the
scoped rows, education and age sorted by taxonomy index, occupation sorted
descending by weight with non-positive entries filtered out. -/
def cohortBreakdowns (rows : List DataRow) (c : CohortType) : Breakdowns where
  edu :=
    (buildMap rows (fun d => d.education_level_label) (cohortWeight c)).insertionSort
      (idxRel EDUCATION_ORDER)
  age :=
    (buildMap rows (fun d => d.age_group) (cohortWeight c)).insertionSort
      (idxRel AGE_GROUPS)
  occ :=
    ((buildMap rows (fun d => d.soc_2019_5_acs_name) (cohortWeight c)).insertionSort
      occRel).filter fun e => decide (0 < e.2)

/-! ### Profile Classifier -/

/-- Sum of the weights of the entries of a breakdown
(`.reduce((sum, [, val]) => sum + val, 0)`). -/
def sumVals (m : List (String × ℤ)) : ℤ := (m.map fun e => e.2).sum

/-- Aggregated weight a breakdown holds at a label (sum over the entries
carrying that label; on a table with unique keys this is the value of the
entry, and `0` when the label is absent). -/
def keyVal (m : List (String × ℤ)) (k : String) : ℤ :=
  sumVals (m.filter fun e => e.1 == k)

/-- `totalCohort`: total weight of the education breakdown. -/
def totalCohort (b : Breakdowns) : ℤ := sumVals b.edu

/-- Weight of the two youngest age brackets. -/
def youngCount (b : Breakdowns) : ℤ :=
  sumVals (b.age.filter fun e => e.1 == "18-24" || e.1 == "25-34")

/-- Weight of the two oldest age brackets. -/
def matureCount (b : Breakdowns) : ℤ :=
  sumVals (b.age.filter fun e => e.1 == "45-54" || e.1 == "55-64")

/-- Weight of the two lowest credential levels. -/
def lowEduCount (b : Breakdowns) : ℤ :=
  sumVals (b.edu.filter fun e => e.1 == "Less than HS" || e.1 == "HS diploma/GED")

/-- Weight of the labels the high-education filter of the source actually
names: the bachelor label and the graduate label (the latter is not a
label of `EDUCATION_ORDER`). -/
def highEduCount (b : Breakdowns) : ℤ :=
  sumVals
    (b.edu.filter fun e => e.1 == "Bachelor\x27s degree" || e.1 == "Graduate degree")

/-- Weight found at the `"Some college"` entry (`?.[1] || 0`). -/
def someCollegeCount (b : Breakdowns) : ℤ :=
  match b.edu.find? (fun e => e.1 == "Some college") with
  | some e => e.2
  | none => 0

/-- The JS comparison `num / den > t` on IEEE numbers, for integer `num`,
`den`: when `den = 0` the quotient is `NaN` (if `num = 0`), `+∞` (if
`num > 0`) or `-∞` (if `num < 0`), so the comparison holds iff `0 < num`;
otherwise it is the exact rational comparison. -/
def jsDivGt (num den : ℤ) (t : ℚ) : Bool :=
  if den = 0 then decide (0 < num) else decide (t < (num : ℚ) / (den : ℚ))

def isYoungCohort (b : Breakdowns) : Bool :=
  jsDivGt (youngCount b) (totalCohort b) (1 / 2)

def isMatureCohort (b : Breakdowns) : Bool :=
  jsDivGt (matureCount b) (totalCohort b) (1 / 2)

def isLowEducation (b : Breakdowns) : Bool :=
  jsDivGt (lowEduCount b) (totalCohort b) (3 / 5)

def isHighEducation (b : Breakdowns) : Bool :=
  jsDivGt (highEduCount b) (totalCohort b) (2 / 5)

def hasSomeCollege (b : Breakdowns) : Bool :=
  jsDivGt (someCollegeCount b) (totalCohort b) (3 / 20)

/-- `s.includes(pat)` for the non-empty keywords used by the source:
`pat` occurs in `s` iff splitting on `pat` yields at least two pieces. -/
def strIncludes (s pat : String) : Bool := decide (2 ≤ (s.splitOn pat).length)

/-! ### Recommendation Composer (titles identify the strategy entries;
the bodies are interpolated narrative prose with no branching of their own) -/

def youthApprenticeshipTitle : String :=
  "Strategy: Youth Apprenticeship & Pre-Apprenticeship Programs"

def midCareerTitle : String :=
  "Strategy: Mid-Career Upskilling & Re-Credentialing"

def careerAdvancementTitle : String := "Strategy: Career Advancement Pathways"

def foundationalSkillsTitle : String :=
  "Strategy: Foundational Skills & Industry-Recognized Credentials"

def advancedStackingTitle : String :=
  "Strategy: Advanced Credential Stacking & Management Pathways"

def flexiblePostsecondaryTitle : String :=
  "Strategy: Flexible Postsecondary Completion & Certificate Programs"

def advancedManufacturingTitle : String :=
  "Strategy: Advanced Manufacturing Skills & Automation Training"

def healthcareLaddersTitle : String :=
  "Strategy: Healthcare Career Ladders & Clinical Certifications"

def digitalCommerceTitle : String :=
  "Strategy: Digital Commerce & Customer Experience Specialization"

def skilledTradesTitle : String :=
  "Strategy: Skilled Trades Credentialing & Supervisory Development"

def technologyUpskillingTitle : String :=
  "Strategy: Technology Upskilling & Professional Certification"

def educationalSupportTitle : String :=
  "Strategy: Educational Support Professional Development"

def crossSectorTitle : String :=
  "Strategy: Cross-Sector Skills Transfer & Industry Switching"

def collegeCompletionTitle : String :=
  "Strategy: College Completion & Credit for Prior Learning"

def internalMobilityTitle : String :=
  "Strategy: Employer-Led Internal Mobility Systems"

def selfEmploymentTitle : String :=
  "Strategy: Self-Employment & Microbusiness Development"

/-- Recommendation 1: the `isYoungCohort` / `isMatureCohort` / default chain. -/
def ageStrategyTitle (b : Breakdowns) : String :=
  if isYoungCohort b then youthApprenticeshipTitle
  else if isMatureCohort b then midCareerTitle
  else careerAdvancementTitle

/-- Recommendation 2: the `isLowEducation` / `isHighEducation` / default chain. -/
def eduStrategyTitle (b : Breakdowns) : String :=
  if isLowEducation b then foundationalSkillsTitle
  else if isHighEducation b then advancedStackingTitle
  else flexiblePostsecondaryTitle

/-- Recommendation 3: the sector-keyword chain (`isManufacturing`,
`isHealthcare`, `isRetail`, `isConstruction`, `isProfessional`,
`isEducation`, default), first match wins. -/
def sectorStrategyTitle (sector : String) : String :=
  if strIncludes sector "Manufacturing" then advancedManufacturingTitle
  else if strIncludes sector "Health" then healthcareLaddersTitle
  else if strIncludes sector "Retail" || strIncludes sector "Food" then
    digitalCommerceTitle
  else if strIncludes sector "Construction" then skilledTradesTitle
  else if strIncludes sector "Professional" || strIncludes sector "Finance" ||
      strIncludes sector "Information" then technologyUpskillingTitle
  else if strIncludes sector "Educational" then educationalSupportTitle
  else crossSectorTitle

/-- The fixed keyword list gating the entrepreneurship strategy. -/
def entrepreneurshipOccupations : List String :=
  ["Carpenters", "Electricians", "Plumbers", "HVAC", "Hair", "Cosmetologists",
   "Photographers", "Designers", "Drivers", "Mechanics", "Repair"]

/-- `entrepreneurshipOccupations.some(occ => targetOccupation.includes(occ))`,
with a null `targetOccupation` read as the empty string. -/
def isEntrepreneurshipViable (targetOccupation : Option String) : Bool :=
  entrepreneurshipOccupations.any fun occ =>
    strIncludes (targetOccupation.getD "") occ

/-- The composed recommendation list, one entry per `push` site of the
source, identified by title. -/
def recommendationTitles (b : Breakdowns) (sector : String)
    (targetOccupation : Option String) : List String :=
  [ageStrategyTitle b, eduStrategyTitle b, sectorStrategyTitle sector]
    ++ (if hasSomeCollege b then [collegeCompletionTitle] else [])
    ++ [internalMobilityTitle]
    ++ (if isEntrepreneurshipViable targetOccupation then [selfEmploymentTitle]
        else [])

/-! ### Selection state and the target-occupation auto-populate effect -/

/-- The selection state of the dashboard. -/
structure SelectionState where
  geography : String
  sector : String
  selectedCohort : CohortType
  targetOccupation : Option String
deriving DecidableEq

/-- A user interaction changing one scope dimension. -/
inductive SelectionEvent where
  | setGeography (g : String)
  | setSector (s : String)
  | setCohort (c : CohortType)

/-- JS falsiness of `targetOccupation : string | null`
(`!targetOccupation`): `null` and the empty string are falsy. -/
def jsFalsyStr : Option String → Bool
  | none => true
  | some s => s == ""

/-- The `useEffect` body: if the occupation breakdown is non-empty and
`targetOccupation` is falsy, set it to the top-ranked occupation. -/
def autoPopulate (occL : List (String × ℤ)) (target : Option String) :
    Option String :=
  match occL with
  | [] => target
  | e :: _ => if jsFalsyStr target then some e.1 else target

/-- One selection change followed by the auto-populate effect on the
recomputed occupation breakdown. -/
def applyEvent (rawData : List DataRow) (st : SelectionState)
    (ev : SelectionEvent) : SelectionState :=
  let st' :=
    match ev with
    | .setGeography g => { st with geography := g }
    | .setSector s => { st with sector := s }
    | .setCohort c => { st with selectedCohort := c }
  { st' with
    targetOccupation :=
      autoPopulate
        (cohortBreakdowns (filteredByScope rawData st'.geography st'.sector)
            st'.selectedCohort).occ
        st'.targetOccupation }

/-- A session: a sequence of selection changes applied in order. -/
def applyEvents (rawData : List DataRow) (st : SelectionState)
    (evs : List SelectionEvent) : SelectionState :=
  evs.foldl (applyEvent rawData) st

/-- The "Stranded Rate" value of the scope panel: `stats.lw / stats.total`
(the display multiplies by 100 and truncates). -/
def strandedRate (rawData : List DataRow) (geography sector : String) : ℚ :=
  let s := statsOf (filteredByScope rawData geography sector)
  (s.lw : ℚ) / (s.total : ℚ)

/-- Modelled from the spec: the two highest credential levels of the fixed
education ordering table (the spec defines `highEducationShare` as their
summed weight over the total; used to compare against `highEduCount`
as the source computes it). -/
def specTwoHighestLevels : List String :=
  EDUCATION_ORDER.drop (EDUCATION_ORDER.length - 2)

/-- Modelled from the spec: summed education-breakdown weight of the two
highest credential levels. -/
def specHighEduSum (b : Breakdowns) : ℤ :=
  sumVals (b.edu.filter fun e => specTwoHighestLevels.contains e.1)

/-- Modelled from the spec: `isHighEducation` = share of the two highest
credential levels exceeds 0.4 (with the same zero-denominator treatment). -/
def specIsHighEducation (b : Breakdowns) : Bool :=
  jsDivGt (specHighEduSum b) (totalCohort b) (2 / 5)

/-- The spec scenario row: Nashville Manufacturing machinist with
lowWage 10, underemployed 5, stalled 3, total 500. -/
def testRow : DataRow :=
  { msa_category := "Nashville", NAICS2_NAME := "Manufacturing",
    n_weighted := 500, n_weighted_low_wage := 10,
    n_weighted_underemployed := 5, n_weighted_stalled := 3,
    education_level_label := "HS diploma/GED",
    soc_2019_5_acs_name := "Machinist", age_group := "25-34" }

/-- The second row of the spec scenario: same sector, different region, so the
Nashville selection must exclude it. -/
def memphisRow : DataRow :=
  { msa_category := "Memphis", NAICS2_NAME := "Manufacturing",
    n_weighted := 900, n_weighted_low_wage := 200,
    n_weighted_underemployed := 80, n_weighted_stalled := 60,
    education_level_label := "Some college",
    soc_2019_5_acs_name := "Assemblers", age_group := "35-44" }

/-- A row whose education label is in the ordering table. -/
def ltHsRow : DataRow :=
  { msa_category := "Nashville", NAICS2_NAME := "Manufacturing",
    n_weighted := 50, n_weighted_low_wage := 1,
    n_weighted_underemployed := 0, n_weighted_stalled := 0,
    education_level_label := "Less than HS",
    soc_2019_5_acs_name := "Machinist", age_group := "25-34" }

/-- A row whose education label is absent from the ordering table. -/
def unknownEduRow : DataRow :=
  { msa_category := "Nashville", NAICS2_NAME := "Manufacturing",
    n_weighted := 50, n_weighted_low_wage := 1,
    n_weighted_underemployed := 0, n_weighted_stalled := 0,
    education_level_label := "Unknown",
    soc_2019_5_acs_name := "Machinist", age_group := "25-34" }

/-- A row whose education label is the second-highest credential level of
the table, which the high-education filter of the source does not count. -/
def mastersRow : DataRow :=
  { msa_category := "Nashville", NAICS2_NAME := "Manufacturing",
    n_weighted := 20, n_weighted_low_wage := 10,
    n_weighted_underemployed := 0, n_weighted_stalled := 0,
    education_level_label := "Master\x27s degree",
    soc_2019_5_acs_name := "Machinist", age_group := "25-34" }

/-- The dataset invariant: every cohort weight of a row is non-negative. -/
def nonnegRow (d : DataRow) : Prop :=
  0 ≤ d.n_weighted_low_wage ∧ 0 ≤ d.n_weighted_underemployed ∧
    0 ≤ d.n_weighted_stalled

instance (d : DataRow) : Decidable (nonnegRow d) :=
  inferInstanceAs (Decidable (_ ∧ _ ∧ _))

/-- A row edit that changes only the underemployed and stalled weights
(used to check those weights never enter the Stranded Rate). -/
def zeroUnderStalled (d : DataRow) : DataRow :=
  { d with n_weighted_underemployed := 0, n_weighted_stalled := 0 }

/-! ### Helper lemmas about the aggregation table -/

theorem sumVals_nil : sumVals [] = 0 := rfl

theorem sumVals_cons (e : String × ℤ) (m : List (String × ℤ)) :
    sumVals (e :: m) = e.2 + sumVals m := by
  simp [sumVals]

theorem sumVals_perm {l l' : List (String × ℤ)} (h : l.Perm l') :
    sumVals l = sumVals l' :=
  (h.map _).sum_eq

theorem keyVal_perm {l l' : List (String × ℤ)} (h : l.Perm l') (k : String) :
    keyVal l k = keyVal l' k :=
  sumVals_perm (h.filter _)

theorem sumVals_upsert (m : List (String × ℤ)) (k : String) (w : ℤ) :
    sumVals (upsert m k w) = sumVals m + w := by
  induction m with
  | nil => simp [upsert, sumVals]
  | cons e m ih =>
      by_cases h : e.1 = k
      · simp only [upsert, if_pos h, sumVals_cons]
        ring
      · simp only [upsert, if_neg h, sumVals_cons, ih]
        ring

theorem keyVal_nil (k : String) : keyVal [] k = 0 := rfl

theorem keyVal_cons (e : String × ℤ) (m : List (String × ℤ)) (k : String) :
    keyVal (e :: m) k = (if e.1 = k then e.2 else 0) + keyVal m k := by
  by_cases h : e.1 = k <;> simp [keyVal, List.filter_cons, h, sumVals_cons]

theorem keyVal_upsert (m : List (String × ℤ)) (k : String) (w : ℤ)
    (k' : String) :
    keyVal (upsert m k w) k' = keyVal m k' + (if k = k' then w else 0) := by
  induction m with
  | nil =>
      show keyVal [(k, w)] k' = _
      by_cases h : k = k' <;> simp [keyVal_cons, keyVal_nil, h]
  | cons e m ih =>
      by_cases h : e.1 = k
      · simp only [upsert, if_pos h]
        rw [keyVal_cons, keyVal_cons]
        by_cases h' : e.1 = k'
        · rw [if_pos h', if_pos h', if_pos (h.symm.trans h')]
          ring
        · rw [if_neg h', if_neg h',
            if_neg (fun hc => h' (h.trans hc))]
          ring
      · simp only [upsert, if_neg h]
        rw [keyVal_cons, keyVal_cons, ih]
        ring

theorem buildMap_append_single (rows : List DataRow) (r : DataRow)
    (keyOf : DataRow → String) (weightOf : DataRow → ℤ) :
    buildMap (rows ++ [r]) keyOf weightOf =
      upsert (buildMap rows keyOf weightOf) (keyOf r) (weightOf r) := by
  simp [buildMap, List.foldl_append]

theorem sumVals_foldl_upsert (keyOf : DataRow → String)
    (weightOf : DataRow → ℤ) (rows : List DataRow)
    (m : List (String × ℤ)) :
    sumVals (rows.foldl (fun m d => upsert m (keyOf d) (weightOf d)) m) =
      sumVals m + (rows.map weightOf).sum := by
  induction rows generalizing m with
  | nil => simp
  | cons d rows ih =>
      simp only [List.foldl_cons, List.map_cons, List.sum_cons]
      rw [ih, sumVals_upsert]
      ring

theorem sumVals_buildMap (rows : List DataRow) (keyOf : DataRow → String)
    (weightOf : DataRow → ℤ) :
    sumVals (buildMap rows keyOf weightOf) = (rows.map weightOf).sum := by
  have h := sumVals_foldl_upsert keyOf weightOf rows []
  simpa [buildMap, sumVals_nil] using h

theorem upsert_val_nonneg {m : List (String × ℤ)} {k : String} {w : ℤ}
    (hm : ∀ e ∈ m, 0 ≤ e.2) (hw : 0 ≤ w) :
    ∀ e ∈ upsert m k w, 0 ≤ e.2 := by
  induction m with
  | nil =>
      intro x hx
      rw [show upsert [] k w = [(k, w)] from rfl, List.mem_singleton] at hx
      subst hx
      exact hw
  | cons e m ih =>
      intro x hx
      by_cases h : e.1 = k
      · rw [show upsert (e :: m) k w = (e.1, e.2 + w) :: m by
          simp [upsert, h], List.mem_cons] at hx
        rcases hx with hx | hx
        · subst hx
          exact add_nonneg (hm e (List.mem_cons_self e m)) hw
        · exact hm x (List.mem_cons_of_mem e hx)
      · rw [show upsert (e :: m) k w = e :: upsert m k w by
          simp [upsert, h], List.mem_cons] at hx
        rcases hx with hx | hx
        · rw [hx]
          exact hm e (List.mem_cons_self e m)
        · exact ih (fun y hy => hm y (List.mem_cons_of_mem e hy)) x hx

theorem buildMap_val_nonneg {rows : List DataRow} {keyOf : DataRow → String}
    {weightOf : DataRow → ℤ} (h : ∀ d ∈ rows, 0 ≤ weightOf d) :
    ∀ e ∈ buildMap rows keyOf weightOf, 0 ≤ e.2 := by
  suffices H : ∀ (rows' : List DataRow) (m : List (String × ℤ)),
      (∀ d ∈ rows', 0 ≤ weightOf d) → (∀ e ∈ m, 0 ≤ e.2) →
      ∀ e ∈ rows'.foldl (fun m d => upsert m (keyOf d) (weightOf d)) m,
        0 ≤ e.2 by
    exact H rows [] h (by simp)
  intro rows'
  induction rows' with
  | nil =>
      intro m _ hm
      simpa using hm
  | cons d rows' ih =>
      intro m hr hm
      simp only [List.foldl_cons]
      exact ih _ (fun x hx => hr x (List.mem_cons_of_mem d hx))
        (upsert_val_nonneg hm (hr d (List.mem_cons_self d rows')))

theorem sumVals_filter_pos {l : List (String × ℤ)}
    (h : ∀ e ∈ l, 0 ≤ e.2) :
    sumVals (l.filter fun e => decide (0 < e.2)) = sumVals l := by
  induction l with
  | nil => simp
  | cons e l ih =>
      have he := h e (List.mem_cons_self e l)
      have ih' := ih fun x hx => h x (List.mem_cons_of_mem e hx)
      by_cases hp : 0 < e.2
      · simp [List.filter_cons, hp, sumVals_cons, ih']
      · have h0 : e.2 = 0 := le_antisymm (not_lt.mp hp) he
        simp [List.filter_cons, hp, sumVals_cons, ih', h0]

theorem keyVal_filter_pos {l : List (String × ℤ)}
    (h : ∀ e ∈ l, 0 ≤ e.2) (k : String) :
    keyVal (l.filter fun e => decide (0 < e.2)) k = keyVal l k := by
  unfold keyVal
  rw [List.filter_filter]
  have h1 : (l.filter fun a => (a.1 == k) && decide (0 < a.2)) =
      l.filter fun a => decide (0 < a.2) && (a.1 == k) :=
    List.filter_congr fun e _ => Bool.and_comm _ _
  rw [h1, ← List.filter_filter]
  exact sumVals_filter_pos fun e he => h e (List.mem_of_mem_filter he)

/-! ### Ordering facts -/

instance (table : List String) : IsTotal (String × ℤ) (idxRel table) :=
  ⟨fun _ _ => Int.le_total _ _⟩

instance (table : List String) : IsTrans (String × ℤ) (idxRel table) :=
  ⟨fun _ _ _ h h' => le_trans h h'⟩

instance : IsTotal (String × ℤ) occRel :=
  ⟨fun _ _ => Int.le_total _ _⟩

instance : IsTrans (String × ℤ) occRel :=
  ⟨fun _ _ _ h h' => le_trans h' h⟩

/-- `indexOf` is non-negative exactly on the members of the table (it is
`-1` otherwise). -/
theorem jsIndexOf_nonneg_iff (table : List String) (s : String) :
    0 ≤ jsIndexOf table s ↔ s ∈ table := by
  induction table with
  | nil => simp [jsIndexOf]
  | cons a rest ih =>
      by_cases h : a = s
      · simp [jsIndexOf, h]
      · have hne : ¬s = a := fun hc => h hc.symm
        by_cases hr : jsIndexOf rest s < 0
        · have hv : jsIndexOf (a :: rest) s = -1 := by
            simp [jsIndexOf, h, hr]
          rw [hv, List.mem_cons]
          constructor
          · intro hc; norm_num at hc
          · intro hs
            rcases hs with hs | hs
            · exact absurd hs hne
            · exact absurd (ih.mpr hs) (not_le.mpr hr)
        · have hv : jsIndexOf (a :: rest) s = jsIndexOf rest s + 1 := by
            simp [jsIndexOf, h, hr]
          rw [hv, List.mem_cons]
          push_neg at hr
          constructor
          · intro _; exact Or.inr (ih.mp hr)
          · intro _; omega

/-- In a list sorted by the taxonomy-index comparator, the entries whose
label is missing from the table (index `-1`) form a prefix: the list splits
as (unmapped entries) ++ (mapped entries). -/
theorem sorted_idxRel_split (table : List String)
    {l : List (String × ℤ)} (h : l.Sorted (idxRel table)) :
    l = (l.filter fun x => decide (x.1 ∉ table)) ++
        (l.filter fun x => decide (x.1 ∈ table)) := by
  induction l with
  | nil => rfl
  | cons e rest ih =>
      rw [List.sorted_cons] at h
      obtain ⟨hall, hrest⟩ := h
      by_cases he : e.1 ∈ table
      · have hmem : ∀ x ∈ e :: rest, x.1 ∈ table := by
          intro x hx
          rcases List.mem_cons.mp hx with hx | hx
          · rw [hx]; exact he
          · have h0 : 0 ≤ jsIndexOf table e.1 :=
              (jsIndexOf_nonneg_iff _ _).mpr he
            exact (jsIndexOf_nonneg_iff _ _).mp (le_trans h0 (hall x hx))
        have h1 : ((e :: rest).filter fun x => decide (x.1 ∉ table)) = [] := by
          rw [List.filter_eq_nil_iff]
          intro x hx
          simp only [decide_eq_true_eq, Decidable.not_not]
          exact hmem x hx
        have h2 : ((e :: rest).filter fun x => decide (x.1 ∈ table)) =
            e :: rest := by
          rw [List.filter_eq_self]
          intro x hx
          simpa using hmem x hx
        rw [h1, h2, List.nil_append]
      · have h1 : ((e :: rest).filter fun x => decide (x.1 ∉ table)) =
            e :: (rest.filter fun x => decide (x.1 ∉ table)) := by
          simp [List.filter_cons, he]
        have h2 : ((e :: rest).filter fun x => decide (x.1 ∈ table)) =
            rest.filter fun x => decide (x.1 ∈ table) := by
          simp [List.filter_cons, he]
        rw [h1, h2, List.cons_append]
        exact congrArg (e :: ·) (ih hrest)

/-! ### Stats accumulation -/

theorem statsOf_foldl (rows : List DataRow) (s : Stats) :
    rows.foldl statsStep s =
      ⟨s.total + (rows.map fun d => d.n_weighted).sum,
       s.lw + (rows.map fun d => d.n_weighted_low_wage).sum,
       s.ue + (rows.map fun d => d.n_weighted_underemployed).sum,
       s.st + (rows.map fun d => d.n_weighted_stalled).sum⟩ := by
  induction rows generalizing s with
  | nil => simp
  | cons d rows ih =>
      simp only [List.foldl_cons, List.map_cons, List.sum_cons, ih, statsStep]
      simp only [Stats.mk.injEq]
      refine ⟨by ring, by ring, by ring, by ring⟩

/-- The accumulated stats are the four column sums of the scoped rows. -/
theorem statsOf_eq (rows : List DataRow) :
    statsOf rows =
      ⟨(rows.map fun d => d.n_weighted).sum,
       (rows.map fun d => d.n_weighted_low_wage).sum,
       (rows.map fun d => d.n_weighted_underemployed).sum,
       (rows.map fun d => d.n_weighted_stalled).sum⟩ := by
  simpa [statsOf] using statsOf_foldl rows ⟨0, 0, 0, 0⟩

/-! ### Breakdown bridging lemmas -/

theorem sumVals_edu (rows : List DataRow) (c : CohortType) :
    sumVals (cohortBreakdowns rows c).edu =
      (rows.map (cohortWeight c)).sum := by
  unfold cohortBreakdowns
  rw [sumVals_perm (List.perm_insertionSort _ _), sumVals_buildMap]

theorem sumVals_age (rows : List DataRow) (c : CohortType) :
    sumVals (cohortBreakdowns rows c).age =
      (rows.map (cohortWeight c)).sum := by
  unfold cohortBreakdowns
  rw [sumVals_perm (List.perm_insertionSort _ _), sumVals_buildMap]

theorem occ_presort_val_nonneg {rows : List DataRow} {c : CohortType}
    (h : ∀ d ∈ rows, 0 ≤ cohortWeight c d) :
    ∀ e ∈ (buildMap rows (fun d => d.soc_2019_5_acs_name)
        (cohortWeight c)).insertionSort occRel, 0 ≤ e.2 := by
  intro e he
  exact buildMap_val_nonneg h e ((List.perm_insertionSort _ _).mem_iff.mp he)

theorem sumVals_occ (rows : List DataRow) (c : CohortType)
    (h : ∀ d ∈ rows, 0 ≤ cohortWeight c d) :
    sumVals (cohortBreakdowns rows c).occ =
      (rows.map (cohortWeight c)).sum := by
  unfold cohortBreakdowns
  rw [sumVals_filter_pos (occ_presort_val_nonneg h),
    sumVals_perm (List.perm_insertionSort _ _), sumVals_buildMap]

theorem keyVal_edu (rows : List DataRow) (c : CohortType) (k : String) :
    keyVal (cohortBreakdowns rows c).edu k =
      keyVal (buildMap rows (fun d => d.education_level_label)
        (cohortWeight c)) k :=
  keyVal_perm (List.perm_insertionSort _ _) k

theorem keyVal_age (rows : List DataRow) (c : CohortType) (k : String) :
    keyVal (cohortBreakdowns rows c).age k =
      keyVal (buildMap rows (fun d => d.age_group) (cohortWeight c)) k :=
  keyVal_perm (List.perm_insertionSort _ _) k

theorem keyVal_occ (rows : List DataRow) (c : CohortType) (k : String)
    (h : ∀ d ∈ rows, 0 ≤ cohortWeight c d) :
    keyVal (cohortBreakdowns rows c).occ k =
      keyVal (buildMap rows (fun d => d.soc_2019_5_acs_name)
        (cohortWeight c)) k := by
  unfold cohortBreakdowns
  rw [keyVal_filter_pos (occ_presort_val_nonneg h)]
  exact keyVal_perm (List.perm_insertionSort _ _) k

theorem cohortWeight_nonneg {d : DataRow} (h : nonnegRow d) :
    ∀ c : CohortType, 0 ≤ cohortWeight c d := by
  intro c
  cases c with
  | lowWage => exact h.1
  | underemployedC => exact h.2.1
  | stalledC => exact h.2.2
  | allStranded => exact add_nonneg (add_nonneg h.1 h.2.1) h.2.2

/-! ### Claim theorems -/

/-- C1: under the "All Stranded" cohort selector, appending a scoped row
adds `lowWageWeight + underemployedWeight + stalledWeight` to the entry for
the label of that row in each of the three breakdowns; and the concrete spec
scenario — a single row with lowWage 10, underemployed 5, stalled 3 —
contributes 18 to the entry for each of its labels. -/
theorem allStranded_row_contribution (rows : List DataRow) (r : DataRow)
    (h : ∀ d ∈ rows ++ [r], nonnegRow d) :
    (keyVal (cohortBreakdowns (rows ++ [r]) .allStranded).edu
        r.education_level_label =
      keyVal (cohortBreakdowns rows .allStranded).edu r.education_level_label +
        (r.n_weighted_low_wage + r.n_weighted_underemployed +
          r.n_weighted_stalled))
    ∧ (keyVal (cohortBreakdowns (rows ++ [r]) .allStranded).age r.age_group =
        keyVal (cohortBreakdowns rows .allStranded).age r.age_group +
          (r.n_weighted_low_wage + r.n_weighted_underemployed +
            r.n_weighted_stalled))
    ∧ (keyVal (cohortBreakdowns (rows ++ [r]) .allStranded).occ
          r.soc_2019_5_acs_name =
        keyVal (cohortBreakdowns rows .allStranded).occ r.soc_2019_5_acs_name +
          (r.n_weighted_low_wage + r.n_weighted_underemployed +
            r.n_weighted_stalled))
    ∧ cohortBreakdowns [testRow] .allStranded =
        { edu := [("HS diploma/GED", 18)], age := [("25-34", 18)],
          occ := [("Machinist", 18)] } := by
  have hw : ∀ d ∈ rows ++ [r], 0 ≤ cohortWeight .allStranded d :=
    fun d hd => cohortWeight_nonneg (h d hd) _
  have hwrows : ∀ d ∈ rows, 0 ≤ cohortWeight .allStranded d :=
    fun d hd => hw d (List.mem_append_left _ hd)
  refine ⟨?_, ?_, ?_, by decide⟩
  · rw [keyVal_edu, keyVal_edu, buildMap_append_single, keyVal_upsert,
      if_pos rfl]
    rfl
  · rw [keyVal_age, keyVal_age, buildMap_append_single, keyVal_upsert,
      if_pos rfl]
    rfl
  · rw [keyVal_occ _ _ _ hw, keyVal_occ _ _ _ hwrows,
      buildMap_append_single, keyVal_upsert, if_pos rfl]
    rfl

/-- Witness for C1 at the concrete spec scenario: the education entry of
the single row receives exactly 10 + 5 + 3 = 18. -/
theorem allStranded_row_contribution_witness :
    keyVal (cohortBreakdowns ([] ++ [testRow]) .allStranded).edu
        testRow.education_level_label =
      keyVal (cohortBreakdowns [] .allStranded).edu
          testRow.education_level_label +
        (testRow.n_weighted_low_wage + testRow.n_weighted_underemployed +
          testRow.n_weighted_stalled) :=
  (allStranded_row_contribution [] testRow (by decide)).1

/-- C2: the Scope Filter keeps exactly the rows whose sector equals the
selection and whose region equals the selection or the wildcard `"All"` is
selected; in the spec scenario the Memphis row is excluded under the
Nashville selection. -/
theorem filteredByScope_spec :
    (∀ (rawData : List DataRow) (geography sector : String) (d : DataRow),
        d ∈ filteredByScope rawData geography sector ↔
          d ∈ rawData ∧ (geography = "All" ∨ d.msa_category = geography) ∧
            d.NAICS2_NAME = sector)
    ∧ filteredByScope [testRow, memphisRow] "Nashville" "Manufacturing" =
        [testRow] := by
  refine ⟨?_, by decide⟩
  intro rawData geography sector d
  simp [filteredByScope, List.mem_filter]

/-- C3: for non-negative weights, the three breakdowns of a cohort all sum
to the same total (each aggregates the identical per-row cohort weight; the
occupation breakdown only ever drops exactly-zero aggregates). -/
theorem breakdown_totals_agree (rows : List DataRow) (c : CohortType)
    (h : ∀ d ∈ rows, nonnegRow d) :
    sumVals (cohortBreakdowns rows c).edu =
        sumVals (cohortBreakdowns rows c).age
    ∧ sumVals (cohortBreakdowns rows c).age =
        sumVals (cohortBreakdowns rows c).occ := by
  have hw : ∀ d ∈ rows, 0 ≤ cohortWeight c d :=
    fun d hd => cohortWeight_nonneg (h d hd) c
  constructor
  · rw [sumVals_edu, sumVals_age]
  · rw [sumVals_age, sumVals_occ rows c hw]

/-- Witness for C3 on a concrete two-row scope. -/
theorem breakdown_totals_agree_witness :
    sumVals (cohortBreakdowns [testRow, memphisRow] .allStranded).edu =
        sumVals (cohortBreakdowns [testRow, memphisRow] .allStranded).age
    ∧ sumVals (cohortBreakdowns [testRow, memphisRow] .allStranded).age =
        sumVals (cohortBreakdowns [testRow, memphisRow] .allStranded).occ :=
  breakdown_totals_agree [testRow, memphisRow] .allStranded (by decide)

/-- C4: the occupation breakdown is sorted in descending order of
aggregated weight (any earlier position carries at least the weight of any
later one, so in particular adjacent pairs), and every surviving entry has
strictly positive weight — no zero-weight entry appears. -/
theorem occ_sorted_desc_and_pos (rows : List DataRow) (c : CohortType) :
    (∀ i j : Fin (cohortBreakdowns rows c).occ.length, i < j →
        ((cohortBreakdowns rows c).occ.get j).2 ≤
          ((cohortBreakdowns rows c).occ.get i).2)
    ∧ ∀ e ∈ (cohortBreakdowns rows c).occ, 0 < e.2 := by
  constructor
  · intro i j hij
    have hs : ((cohortBreakdowns rows c).occ).Sorted occRel := by
      unfold cohortBreakdowns
      exact List.Pairwise.filter _ (List.sorted_insertionSort occRel _)
    exact hs.rel_get_of_lt hij
  · intro e he
    unfold cohortBreakdowns at he
    simpa using (List.mem_filter.mp he).2

/-- Witness for C4 on a concrete two-occupation scope: the weight at
position 1 is at most the weight at position 0. -/
theorem occ_sorted_desc_and_pos_witness :
    ((cohortBreakdowns [testRow, memphisRow] .allStranded).occ.get
        ⟨1, by decide⟩).2 ≤
      ((cohortBreakdowns [testRow, memphisRow] .allStranded).occ.get
        ⟨0, by decide⟩).2 :=
  (occ_sorted_desc_and_pos [testRow, memphisRow] .allStranded).1
    ⟨0, by decide⟩ ⟨1, by decide⟩ (by decide)

theorem sumVals_nonneg {l : List (String × ℤ)} (h : ∀ e ∈ l, 0 ≤ e.2) :
    0 ≤ sumVals l := by
  unfold sumVals
  apply List.sum_nonneg
  intro x hx
  obtain ⟨e, he, rfl⟩ := List.mem_map.mp hx
  exact h e he

theorem vals_zero_of_sum_zero {l : List (String × ℤ)}
    (hn : ∀ e ∈ l, 0 ≤ e.2) (h0 : sumVals l = 0) : ∀ e ∈ l, e.2 = 0 := by
  induction l with
  | nil => simp
  | cons e l ih =>
      rw [sumVals_cons] at h0
      have he := hn e (List.mem_cons_self e l)
      have hl : 0 ≤ sumVals l :=
        sumVals_nonneg fun x hx => hn x (List.mem_cons_of_mem e hx)
      have he0 : e.2 = 0 := by linarith
      intro x hx
      rcases List.mem_cons.mp hx with hx | hx
      · rw [hx]; exact he0
      · exact ih (fun y hy => hn y (List.mem_cons_of_mem e hy))
          (by linarith) x hx

theorem sumVals_zero_of_all_zero {l : List (String × ℤ)}
    (h : ∀ e ∈ l, e.2 = 0) : sumVals l = 0 := by
  unfold sumVals
  apply List.sum_eq_zero
  intro x hx
  obtain ⟨e, he, rfl⟩ := List.mem_map.mp hx
  exact h e he

theorem edu_val_nonneg {rows : List DataRow} {c : CohortType}
    (h : ∀ d ∈ rows, 0 ≤ cohortWeight c d) :
    ∀ e ∈ (cohortBreakdowns rows c).edu, 0 ≤ e.2 := by
  intro e he
  unfold cohortBreakdowns at he
  exact buildMap_val_nonneg h e ((List.perm_insertionSort _ _).mem_iff.mp he)

theorem age_val_nonneg {rows : List DataRow} {c : CohortType}
    (h : ∀ d ∈ rows, 0 ≤ cohortWeight c d) :
    ∀ e ∈ (cohortBreakdowns rows c).age, 0 ≤ e.2 := by
  intro e he
  unfold cohortBreakdowns at he
  exact buildMap_val_nonneg h e ((List.perm_insertionSort _ _).mem_iff.mp he)

/-- C5 (counterexample): on a scope containing an in-table education label
and a label absent from the ordering table, the unmapped label sorts
FIRST, not last — its entry precedes the in-table entry. -/
theorem unmapped_label_sorts_first_counterexample :
    (cohortBreakdowns [ltHsRow, unknownEduRow] .lowWage).edu =
      [("Unknown", 1), ("Less than HS", 1)]
    ∧ "Unknown" ∉ EDUCATION_ORDER ∧ "Less than HS" ∈ EDUCATION_ORDER := by
  decide

/-- C5 (amended): a label absent from the fixed ordering table gets
`indexOf` sentinel `-1`, so in the sorted education and age breakdowns all
unmapped-label entries come BEFORE every in-table entry (the list splits as
unmapped entries followed by mapped entries); the sort is a total function
and never throws. -/
theorem unmapped_labels_sort_first (rows : List DataRow) (c : CohortType) :
    ((cohortBreakdowns rows c).edu =
        ((cohortBreakdowns rows c).edu.filter fun x =>
            decide (x.1 ∉ EDUCATION_ORDER)) ++
          ((cohortBreakdowns rows c).edu.filter fun x =>
            decide (x.1 ∈ EDUCATION_ORDER)))
    ∧ ((cohortBreakdowns rows c).age =
        ((cohortBreakdowns rows c).age.filter fun x =>
            decide (x.1 ∉ AGE_GROUPS)) ++
          ((cohortBreakdowns rows c).age.filter fun x =>
            decide (x.1 ∈ AGE_GROUPS))) := by
  constructor
  · exact sorted_idxRel_split EDUCATION_ORDER
      (List.sorted_insertionSort (idxRel EDUCATION_ORDER) _)
  · exact sorted_idxRel_split AGE_GROUPS
      (List.sorted_insertionSort (idxRel AGE_GROUPS) _)

/-- C6: on a scope whose whole cohort weight sits at the masters-degree
label, the high-education count of the source is 0 (its filter names the
bachelor label and a graduate label that is not even in its own
`EDUCATION_ORDER`), so `isHighEducation` is `false`, while the share of
the two highest credential levels required by the spec is 10/10 = 1 > 0.4. -/
theorem highEducation_share_divergence :
    highEduCount (cohortBreakdowns [mastersRow] .lowWage) = 0
    ∧ specHighEduSum (cohortBreakdowns [mastersRow] .lowWage) = 10
    ∧ totalCohort (cohortBreakdowns [mastersRow] .lowWage) = 10
    ∧ isHighEducation (cohortBreakdowns [mastersRow] .lowWage) = false
    ∧ specIsHighEducation (cohortBreakdowns [mastersRow] .lowWage) = true := by
  have h1 : highEduCount (cohortBreakdowns [mastersRow] .lowWage) = 0 := by
    decide
  have h2 : specHighEduSum (cohortBreakdowns [mastersRow] .lowWage) = 10 := by
    decide
  have h3 : totalCohort (cohortBreakdowns [mastersRow] .lowWage) = 10 := by
    decide
  refine ⟨h1, h2, h3, ?_, ?_⟩
  · unfold isHighEducation
    rw [h1, h3]
    unfold jsDivGt
    rw [if_neg (by norm_num), decide_eq_false_iff_not]
    push_cast
    norm_num
  · unfold specIsHighEducation
    rw [h2, h3]
    unfold jsDivGt
    rw [if_neg (by norm_num), decide_eq_true_eq]
    push_cast
    norm_num

/-- C7: when the total weight of the cohort is zero (over rows with
non-negative weights), every classifier count is zero, the zero-denominator
comparison `0 / 0 > t` is `NaN > t = false`, and so all five derived
booleans are `false` — no NaN or error ever surfaces. -/
theorem zero_total_classifier_false (rows : List DataRow) (c : CohortType)
    (h : ∀ d ∈ rows, nonnegRow d)
    (h0 : totalCohort (cohortBreakdowns rows c) = 0) :
    isYoungCohort (cohortBreakdowns rows c) = false
    ∧ isMatureCohort (cohortBreakdowns rows c) = false
    ∧ isLowEducation (cohortBreakdowns rows c) = false
    ∧ isHighEducation (cohortBreakdowns rows c) = false
    ∧ hasSomeCollege (cohortBreakdowns rows c) = false := by
  have hw : ∀ d ∈ rows, 0 ≤ cohortWeight c d :=
    fun d hd => cohortWeight_nonneg (h d hd) c
  have hedu0 : sumVals (cohortBreakdowns rows c).edu = 0 := h0
  have hage0 : sumVals (cohortBreakdowns rows c).age = 0 := by
    rw [sumVals_age, ← sumVals_edu rows c]
    exact hedu0
  have heduz : ∀ e ∈ (cohortBreakdowns rows c).edu, e.2 = 0 :=
    vals_zero_of_sum_zero (edu_val_nonneg hw) hedu0
  have hagez : ∀ e ∈ (cohortBreakdowns rows c).age, e.2 = 0 :=
    vals_zero_of_sum_zero (age_val_nonneg hw) hage0
  have hyoung : youngCount (cohortBreakdowns rows c) = 0 :=
    sumVals_zero_of_all_zero fun e he =>
      hagez e (List.mem_of_mem_filter he)
  have hmature : matureCount (cohortBreakdowns rows c) = 0 :=
    sumVals_zero_of_all_zero fun e he =>
      hagez e (List.mem_of_mem_filter he)
  have hlow : lowEduCount (cohortBreakdowns rows c) = 0 :=
    sumVals_zero_of_all_zero fun e he =>
      heduz e (List.mem_of_mem_filter he)
  have hhigh : highEduCount (cohortBreakdowns rows c) = 0 :=
    sumVals_zero_of_all_zero fun e he =>
      heduz e (List.mem_of_mem_filter he)
  have hsome : someCollegeCount (cohortBreakdowns rows c) = 0 := by
    unfold someCollegeCount
    cases hf : (cohortBreakdowns rows c).edu.find?
        (fun e => e.1 == "Some college") with
    | none => rfl
    | some e => exact heduz e (List.mem_of_find?_eq_some hf)
  refine ⟨?_, ?_, ?_, ?_, ?_⟩
  · unfold isYoungCohort; rw [hyoung, h0]; decide
  · unfold isMatureCohort; rw [hmature, h0]; decide
  · unfold isLowEducation; rw [hlow, h0]; decide
  · unfold isHighEducation; rw [hhigh, h0]; decide
  · unfold hasSomeCollege; rw [hsome, h0]; decide

/-- Witness for C7 on the empty scope: all five booleans are `false`. -/
theorem zero_total_classifier_false_witness :
    isYoungCohort (cohortBreakdowns [] .allStranded) = false
    ∧ isMatureCohort (cohortBreakdowns [] .allStranded) = false
    ∧ isLowEducation (cohortBreakdowns [] .allStranded) = false
    ∧ isHighEducation (cohortBreakdowns [] .allStranded) = false
    ∧ hasSomeCollege (cohortBreakdowns [] .allStranded) = false :=
  zero_total_classifier_false [] .allStranded (by decide) (by decide)

/-- C8: independently of all inputs, the composed recommendation list is
exactly one age strategy, then exactly one education strategy, then exactly
one sector-category strategy, then the college-completion entry iff
`hasSomeCollege`, then the always-present internal-mobility entry, then the
entrepreneurship entry iff the label of the target occupation contains one of
the fixed trade keywords. -/
theorem recommendation_order (b : Breakdowns) (sector : String)
    (target : Option String) :
    ∃ t1 t2 t3,
      recommendationTitles b sector target =
        t1 :: t2 :: t3 ::
          ((if hasSomeCollege b then [collegeCompletionTitle] else []) ++
            internalMobilityTitle ::
              (if isEntrepreneurshipViable target then [selfEmploymentTitle]
               else []))
      ∧ t1 ∈ [youthApprenticeshipTitle, midCareerTitle,
          careerAdvancementTitle]
      ∧ t2 ∈ [foundationalSkillsTitle, advancedStackingTitle,
          flexiblePostsecondaryTitle]
      ∧ t3 ∈ [advancedManufacturingTitle, healthcareLaddersTitle,
          digitalCommerceTitle, skilledTradesTitle, technologyUpskillingTitle,
          educationalSupportTitle, crossSectorTitle] := by
  refine ⟨ageStrategyTitle b, eduStrategyTitle b, sectorStrategyTitle sector,
    ?_, ?_, ?_, ?_⟩
  · unfold recommendationTitles
    simp
  · unfold ageStrategyTitle
    split_ifs <;> simp
  · unfold eduStrategyTitle
    split_ifs <;> simp
  · unfold sectorStrategyTitle
    split_ifs <;> simp

/-- C9: the "Stranded Rate" of the scope panel is `lowWageSum / totalSum`
of the scoped stats, and is invariant under any edit of the underemployed
and stalled weights of the rows — those two weights never enter it. -/
theorem strandedRate_spec :
    (∀ (rawData : List DataRow) (geography sector : String),
        strandedRate rawData geography sector =
          ((((filteredByScope rawData geography sector).map
              fun d => d.n_weighted_low_wage).sum : ℤ) : ℚ) /
            ((((filteredByScope rawData geography sector).map
              fun d => d.n_weighted).sum : ℤ) : ℚ))
    ∧ ∀ (rawData : List DataRow) (g : DataRow → DataRow)
        (geography sector : String),
        (∀ d, (g d).msa_category = d.msa_category ∧
          (g d).NAICS2_NAME = d.NAICS2_NAME ∧
          (g d).n_weighted = d.n_weighted ∧
          (g d).n_weighted_low_wage = d.n_weighted_low_wage) →
        strandedRate (rawData.map g) geography sector =
          strandedRate rawData geography sector := by
  have hform : ∀ (rawData : List DataRow) (geography sector : String),
      strandedRate rawData geography sector =
        ((((filteredByScope rawData geography sector).map
            fun d => d.n_weighted_low_wage).sum : ℤ) : ℚ) /
          ((((filteredByScope rawData geography sector).map
            fun d => d.n_weighted).sum : ℤ) : ℚ) := by
    intro rawData geography sector
    simp only [strandedRate, statsOf_eq]
  refine ⟨hform, ?_⟩
  intro rawData g geography sector hg
  have hfil : filteredByScope (rawData.map g) geography sector =
      (filteredByScope rawData geography sector).map g := by
    unfold filteredByScope
    rw [List.filter_map]
    congr 1
    apply List.filter_congr
    intro d _
    simp [Function.comp, (hg d).1, (hg d).2.1]
  rw [hform, hform, hfil, List.map_map, List.map_map]
  rw [List.map_congr_left fun d _ =>
      show ((fun d => d.n_weighted_low_wage) ∘ g) d =
        d.n_weighted_low_wage from (hg d).2.2.2,
    List.map_congr_left fun d _ =>
      show ((fun d => d.n_weighted) ∘ g) d = d.n_weighted from (hg d).2.2.1]

/-- Witness for C9: zeroing the underemployed and stalled weight of every row
does not change the Stranded Rate of a concrete scope. -/
theorem strandedRate_spec_witness :
    strandedRate ([testRow, memphisRow].map zeroUnderStalled) "All"
        "Manufacturing" =
      strandedRate [testRow, memphisRow] "All" "Manufacturing" :=
  strandedRate_spec.2 [testRow, memphisRow] zeroUnderStalled "All"
    "Manufacturing" fun _ => ⟨rfl, rfl, rfl, rfl⟩

theorem autoPopulate_some {occL : List (String × ℤ)} {s : String}
    (hne : s ≠ "") : autoPopulate occL (some s) = some s := by
  cases occL with
  | nil => rfl
  | cons e rest => simp [autoPopulate, jsFalsyStr, hne]

theorem applyEvent_target {rawData : List DataRow} {st : SelectionState}
    {s : String} (ev : SelectionEvent)
    (hs : st.targetOccupation = some s) (hne : s ≠ "") :
    (applyEvent rawData st ev).targetOccupation = some s := by
  cases ev <;> simp [applyEvent, hs, autoPopulate_some hne]

/-- C10: once `targetOccupation` holds a non-null (non-empty) occupation,
no sequence of geography, sector or cohort changes ever updates it — the
auto-populate effect fires only while it is null (or the falsy empty
string, which no occupation label of the dashboard is). -/
theorem targetOccupation_sticky (rawData : List DataRow)
    (st : SelectionState) (evs : List SelectionEvent) (s : String)
    (hs : st.targetOccupation = some s) (hne : s ≠ "") :
    (applyEvents rawData st evs).targetOccupation = some s := by
  induction evs generalizing st with
  | nil => exact hs
  | cons ev evs ih =>
      show (List.foldl (applyEvent rawData) st (ev :: evs)).targetOccupation =
        some s
      rw [List.foldl_cons]
      exact ih _ (applyEvent_target ev hs hne)

/-- Witness for C10: switching the geography does not overwrite an
already-chosen occupation, even one absent from the new occupation
breakdown. -/
theorem targetOccupation_sticky_witness :
    (applyEvents [testRow, memphisRow]
        { geography := "All", sector := "Manufacturing",
          selectedCohort := .allStranded, targetOccupation := some "Welders" }
        [.setGeography "Memphis"]).targetOccupation = some "Welders" :=
  targetOccupation_sticky [testRow, memphisRow] _ _ "Welders" rfl (by decide)
